import Mathlib

/-!
Shallow embedding of the crawl4ai content-extraction scripts
(`src/skills/crawl4ai/scripts`) and verification of the specification's
claims about them.

Conventions used throughout:
* Python strings are Lean `String`s; character-level operations go through
  `String.data` so that every definition is executable and kernel-reducible.
* Python's `\s` and `str.strip()` whitespace is modelled by
  `Char.isWhitespace` (space, tab, CR, LF), which covers the character
  repertoire the scripts process.
* `str.lower()` is modelled by `Char.toLower` (ASCII letters; other
  characters are unchanged, as for the non-ASCII literals the scripts use).
* The regular expressions of the scripts are transcribed one by one into
  decidable predicates or scanners; each transcription documents the
  pattern it implements, including `re.sub`'s leftmost, non-overlapping,
  greedy semantics where a substitution is involved.
* Scripts read `postprocess.py` literally, including its mojibake literals
  (the file is double-encoded UTF-8, e.g. `√ó` where `×` was intended).
-/

set_option maxRecDepth 100000

namespace Crawl

/-! ### Python string primitives -/

/-- Python whitespace test (`\s`, `str.strip`): space, tab, CR, LF. -/
def isWs (c : Char) : Bool := c.isWhitespace

/-- Python `str.strip()`. -/
def pyStrip (s : String) : String :=
  String.mk (((s.data.dropWhile isWs).reverse.dropWhile isWs).reverse)

/-- Python `str.lower()`. -/
def pyLower (s : String) : String := String.mk (s.data.map Char.toLower)

/-- Helper for `splitNl`: accumulates the current piece in reverse. -/
def splitNlAux (acc : List Char) : List Char → List String
  | [] => [String.mk acc.reverse]
  | c :: cs =>
      if c = '\n' then String.mk acc.reverse :: splitNlAux [] cs
      else splitNlAux (c :: acc) cs

/-- Python `s.split('\n')` (keeps empty pieces, always at least one piece). -/
def splitNl (s : String) : List String := splitNlAux [] s.data

/-- Python `'\n'.join(lines)`. -/
def joinNl : List String → String
  | [] => ""
  | [s] => s
  | s :: rest => s ++ "\n" ++ joinNl rest

/-- Python `''.join(lines)`. -/
def joinAll : List String → String
  | [] => ""
  | s :: rest => s ++ joinAll rest

/-- Index of the first occurrence of `pat` in a character list. -/
def findSub (pat : List Char) : List Char → Option Nat
  | [] => if pat.isEmpty then some 0 else none
  | c :: cs =>
      if pat.isPrefixOf (c :: cs) then some 0
      else (findSub pat cs).map (· + 1)

/-- Python `pat in s` on character lists. -/
def containsSub (pat cs : List Char) : Bool := (findSub pat cs).isSome

/-- Python `pat in s` (substring containment). -/
def strContains (pat s : String) : Bool := containsSub pat.data s.data

/-- Python `s.startswith(pre)`. -/
def strStarts (pre s : String) : Bool := pre.data.isPrefixOf s.data

/-- Python `s.endswith(suf)`. -/
def strEnds (suf s : String) : Bool := suf.data.reverse.isPrefixOf s.data.reverse

/-- Python `s[:n]` (character slice). -/
def strTake (n : Nat) (s : String) : String := String.mk (s.data.take n)

/-- Python `s[n:]` (character slice). -/
def strDrop (n : Nat) (s : String) : String := String.mk (s.data.drop n)

/-- Index of the last occurrence of `a` (Python `rfind`; `none` for -1). -/
def lastIdxOf (a : Char) : List Char → Option Nat
  | [] => none
  | c :: cs =>
      match lastIdxOf a cs with
      | some k => some (k + 1)
      | none => if c = a then some 0 else none

/-- Leading whitespace removed (the `\s*` of an anchored pattern). -/
def dropWs (cs : List Char) : List Char := cs.dropWhile isWs

/-! ### The deny-list patterns of `clean_markdown`

`PostProcessor.clean_markdown` (postprocess.py lines 48-69) matches every
lowercased line against a fixed list of regular expressions with
`re.search`; each pattern is transcribed below.  Lines contain no newline
(they come from `split('\n')`), so `^`/`$` anchor the whole line. -/

/-- `^\s*\[.*WORD.*\].*$`: after optional whitespace an opening bracket,
then `WORD` somewhere, then a closing bracket somewhere after it. -/
def patBracketWord (word : String) (cs : List Char) : Bool :=
  match dropWs cs with
  | '[' :: t =>
      match findSub word.data t with
      | some k => (t.drop (k + word.data.length)).contains ']'
      | none => false
  | _ => false

/-- `^\s*LIT...`: the literal `lit` after optional leading whitespace. -/
def patStart (lit : String) (cs : List Char) : Bool :=
  lit.data.isPrefixOf (dropWs cs)

/-- `^\s*\[zur.{0,2}ck\]` (the "Zurück" link, with encoding slack). -/
def patZurueck (cs : List Char) : Bool :=
  let t := dropWs cs
  "[zur".data.isPrefixOf t &&
    (List.range 3).any (fun k => "ck]".data.isPrefixOf ((t.drop 4).drop k))

/-- `^\s*\[\d+\]\(` (pagination number links). -/
def patPageLink (cs : List Char) : Bool :=
  match dropWs cs with
  | '[' :: r =>
      let ds := r.takeWhile Char.isDigit
      !ds.isEmpty && "](".data.isPrefixOf (r.drop ds.length)
  | _ => false

/-- `^\s*\d+\|` (lines starting with `<number>|`). -/
def patNumPipe (cs : List Char) : Bool :=
  let t := dropWs cs
  let ds := t.takeWhile Char.isDigit
  !ds.isEmpty && (t.drop ds.length).head? == some '|'

/-- `^\s*\[alle .*aufrufen` ("Alle ... aufrufen" links). -/
def patAlle (cs : List Char) : Bool :=
  let t := dropWs cs
  "[alle ".data.isPrefixOf t && containsSub "aufrufen".data (t.drop 6)

/-- The `skip_patterns` deny list of `PostProcessor.clean_markdown`
(postprocess.py lines 48-69), applied to the lowercased line.  The file's
own mojibake literal `√ó` (in place of `×`) is kept verbatim. -/
def matchesSkipPattern (lineLower : String) : Bool :=
  let cs := lineLower.data
  patBracketWord "menu" cs || patBracketWord "nav" cs ||
  patStart "open submenu" cs || patStart "close submenu" cs ||
  pyStrip lineLower == "+" || pyStrip lineLower == "-" ||
  pyStrip lineLower == "√ó" ||
  patStart "zoom" cs ||
  patStart "[prev]" cs || patStart "[next]" cs ||
  patStart "[start]" cs || patStart "[stop]" cs ||
  patStart "slider" cs ||
  strContains "gehe zum" lineLower || strContains "zur startseite" lineLower ||
  patZurueck cs || patStart "[weiter]" cs ||
  patPageLink cs || patNumPipe cs || patAlle cs

/-! ### `clean_markdown` -/

/-- The line loop of `PostProcessor.clean_markdown`: `i` is the index of
`line` within `allLines` (for the `lines[i:i+5]` chunk window), `cleanedRev`
holds the retained lines in reverse, `prev` is `prev_line` and `seen` is
`seen_chunks`.  The blank-line test keeps Python's operator precedence:
`(not line.strip() and not cleaned_lines[-1].strip()) if cleaned_lines else
False`. -/
def cleanLoop (allLines : List String) (i : Nat) (remaining : List String)
    (cleanedRev : List String) (prev : String) (seen : List String) :
    List String :=
  match remaining with
  | [] => cleanedRev.reverse
  | line :: rest =>
    if matchesSkipPattern (pyLower line) then
      cleanLoop allLines (i+1) rest cleanedRev prev seen
    else if pyStrip line == pyStrip prev && pyStrip line != "" then
      cleanLoop allLines (i+1) rest cleanedRev prev seen
    else if (match cleanedRev with
             | [] => false
             | last :: _ => pyStrip line == "" && pyStrip last == "") then
      cleanLoop allLines (i+1) rest cleanedRev prev seen
    else if i + 5 < allLines.length then
      let chunk := pyStrip (joinAll ((allLines.drop i).take 5))
      if seen.contains chunk && chunk.length > 50 then
        cleanLoop allLines (i+1) rest cleanedRev prev seen
      else
        let seen2 := if chunk.length > 50 then chunk :: seen else seen
        cleanLoop allLines (i+1) rest (line :: cleanedRev) line seen2
    else
      cleanLoop allLines (i+1) rest (line :: cleanedRev) line seen

/-- Emit a run of `n` newlines under `re.sub(r'\n{3,}', '\n\n', ...)`: a
maximal run of three or more newlines becomes exactly two. -/
def emitNl (n : Nat) : List Char := List.replicate (if n ≥ 3 then 2 else n) '\n'

/-- Scanner for `re.sub(r'\n{3,}', '\n\n', s)`; `pending` counts newlines
seen but not yet emitted. -/
def collapseNlGo (pending : Nat) : List Char → List Char
  | [] => emitNl pending
  | c :: cs =>
      if c = '\n' then collapseNlGo (pending + 1) cs
      else emitNl pending ++ c :: collapseNlGo 0 cs

/-- `re.sub(r'\n{3,}', '\n\n', s)`. -/
def collapseNl (s : String) : String := String.mk (collapseNlGo 0 s.data)

/-- Scanner for `re.sub(r'\n---\|---\s*\n', '\n', s)` with `re.sub`'s
leftmost, non-overlapping semantics.  After a literal `\n---|---`, the
greedy `\s*` followed by `\n` consumes the subsequent whitespace run up to
and including its last newline; the replacement `\n` is emitted and
scanning resumes after the match.  `fuel` only bounds recursion and is
chosen larger than the input length. -/
def tableSubGo (fuel : Nat) (cs : List Char) : List Char :=
  match fuel with
  | 0 => cs
  | fuel + 1 =>
    match cs with
    | [] => []
    | c :: rest =>
      if c = '\n' && "---|---".data.isPrefixOf rest then
        let after := rest.drop 7
        let run := after.takeWhile isWs
        match lastIdxOf '\n' run with
        | some k => '\n' :: tableSubGo fuel (after.drop (k+1))
        | none => c :: tableSubGo fuel rest
      else c :: tableSubGo fuel rest

/-- `re.sub(r'\n---\|---\s*\n', '\n', s)`. -/
def tableSub (s : String) : String :=
  String.mk (tableSubGo (s.length + 1) s.data)

/-- `PostProcessor.clean_markdown` (postprocess.py lines 42-106).  The same
code appears verbatim as `SmartCrawler.clean_markdown` in
crawl_to_markdown.py lines 205-275 (there with a correctly encoded `×`
literal) and in crawl_with_assets.py lines 563-633. -/
def clean_markdown (markdown : String) : String :=
  let lines := splitNl markdown
  let cleaned := cleanLoop lines 0 lines [] "" []
  pyStrip (tableSub (collapseNl (joinNl cleaned)))

/-! ### HTML document model

Structural analysis works over BeautifulSoup's parse tree through the
narrow interface the scripts use: tag name, the `id` attribute, the
multi-valued `class` attribute, other attributes, children, document-order
traversal (`find_all`) and visible text (`get_text`).  An element is a
node with those fields; a text node carries a string. -/

inductive Html where
  | el (tag : String) (attrs : List (String × String)) (classes : List String)
      (children : List Html)
  | txt (s : String)

/-- Tag name (`tag.name`); text nodes have none. -/
def Html.tagName : Html → String
  | .el t _ _ _ => t
  | .txt _ => ""

/-- Attribute lookup (`tag.get(k)`), `none` when absent. -/
def Html.attr (h : Html) (k : String) : Option String :=
  match h with
  | .el _ a _ _ => a.lookup k
  | .txt _ => none

/-- The multi-valued `class` attribute (`tag.get('class', [])`). -/
def Html.classList : Html → List String
  | .el _ _ c _ => c
  | .txt _ => []

/-- Child nodes. -/
def Html.children : Html → List Html
  | .el _ _ _ ch => ch
  | .txt _ => []

mutual

/-- All elements of a subtree in document (preorder) order, the order in
which `find_all` yields tags. -/
def allElems (h : Html) : List Html :=
  match h with
  | .el t a c ch => .el t a c ch :: allElemsL ch
  | .txt _ => []

def allElemsL (l : List Html) : List Html :=
  match l with
  | [] => []
  | h :: hs => allElems h ++ allElemsL hs

end

mutual

/-- All text-node strings of a subtree in document order (the strings
`get_text` concatenates). -/
def textsOf (h : Html) : List String :=
  match h with
  | .el _ _ _ ch => textsOfL ch
  | .txt s => [s]

def textsOfL (l : List Html) : List String :=
  match l with
  | [] => []
  | h :: hs => textsOf h ++ textsOfL hs

end

/-- `tag.get_text(strip=True)`: each descendant string stripped, empties
dropped, remainder concatenated. -/
def getTextStrip (h : Html) : String :=
  joinAll (((textsOf h).map pyStrip).filter (fun s => s != ""))

/-- `tag.get_text(separator='\n', strip=True)`. -/
def getTextNlStrip (h : Html) : String :=
  joinNl (((textsOf h).map pyStrip).filter (fun s => s != ""))

/-- `soup.find_all(tags)`: all elements with one of the given tag names, in
document order. -/
def findAllTags (tags : List String) (doc : Html) : List Html :=
  (allElems doc).filter (fun h => tags.contains h.tagName)

/-- `soup.find(t)`: the first element with tag name `t`. -/
def findTag (t : String) (doc : Html) : Option Html :=
  (findAllTags [t] doc).head?

/-- Proper descendants of an element (what `candidate.find_all(...)`
searches). -/
def descendants (h : Html) : List Html := allElemsL h.children

/-- `candidate.find_all('a')`: anchor descendants in document order. -/
def findLinks (h : Html) : List Html :=
  (descendants h).filter (fun x => x.tagName == "a")

/-- Python `' '.join(parts)`. -/
def spaceJoin : List String → String
  | [] => ""
  | [s] => s
  | s :: rest => s ++ " " ++ spaceJoin rest

/-- Python `s.split()[0]` — the first whitespace-separated token (`""` when
there is none; the analyzer only reaches this with a non-empty class
string). -/
def firstWord (s : String) : String :=
  String.mk ((s.data.dropWhile isWs).takeWhile (fun c => !isWs c))

/-! ### Stable descending sort

`scored_elements.sort(key=lambda x: x['score'], reverse=True)` is Python's
stable sort; a stable descending sort of a list is unique, so it is
modelled by stable insertion sort (an element is inserted before the first
strictly smaller key, after equal keys it follows in original order —
which here means the earlier-listed element stays first). -/

/-- Insert `x` into a descending-sorted list, before the first element with
a strictly smaller key (so equal keys keep the original, stable order). -/
def insDescBy {α : Type} (key : α → Int) (x : α) : List α → List α
  | [] => [x]
  | y :: ys => if key x ≥ key y then x :: y :: ys else y :: insDescBy key x ys

/-- Stable descending insertion sort by an integer key. -/
def sortDescBy {α : Type} (key : α → Int) : List α → List α
  | [] => []
  | x :: xs => insDescBy key x (sortDescBy key xs)

/-- The first element attaining the maximal key (document-order
tie-break). -/
def argmaxFirstBy {α : Type} (key : α → Int) : List α → Option α
  | [] => none
  | x :: xs =>
      match argmaxFirstBy key xs with
      | none => some x
      | some y => if key y > key x then some y else some x

theorem head_sortDescBy {α : Type} (key : α → Int) (l : List α) :
    (sortDescBy key l).head? = argmaxFirstBy key l := by
  induction l with
  | nil => rfl
  | cons x xs ih =>
    simp only [sortDescBy, argmaxFirstBy, ← ih]
    cases h : sortDescBy key xs with
    | nil => simp [insDescBy]
    | cons z zs =>
      simp only [insDescBy]
      by_cases hge : key x ≥ key z
      · rw [if_pos hge]
        simp [not_lt_of_ge hge]
      · rw [if_neg hge]
        simp [lt_of_not_ge hge]

/-! ### `analyze_html_structure` -/

/-- A `tag_info` record of `analyze_html_structure`.  The Python `score` is
a float whose only fractional part is `link_text_length * 0.5`; it is
stored doubled (`score2 = 2*score ∈ ℤ`), which preserves all score
comparisons exactly. -/
structure TagInfo where
  tag : String
  id : String
  cls : String
  score2 : Int
  text_length : Nat
  link_count : Nat
deriving Repr, DecidableEq

/-- The fixed keyword set of `analyze_html_structure`'s strategy 2. -/
def contentKeywords : List String :=
  ["content", "main", "article", "inhalt", "body", "post"]

/-- Strategy 2 test: the lowercased id or space-joined class list contains
one of the content keywords. -/
def keywordHit (h : Html) : Bool :=
  let tagId := pyLower ((h.attr "id").getD "")
  let tagClass := pyLower (spaceJoin h.classList)
  contentKeywords.any (fun kw => strContains kw tagId || strContains kw tagClass)

/-- `content_candidates`: `div`/`section`/`main`/`article` elements whose
id or class mentions a content keyword. -/
def contentCandidates (doc : Html) : List Html :=
  (findAllTags ["div", "section", "main", "article"] doc).filter keywordHit

/-- The candidate pool of strategy 3: the keyword candidates when any
exist, else every `div`/`section`/`article` element. -/
def candidatePool (doc : Html) : List Html :=
  if !(contentCandidates doc).isEmpty then contentCandidates doc
  else findAllTags ["div", "section", "article"] doc

/-- Build the `tag_info` of a candidate:
`score = text_length - link_count*20 - link_text_length*0.5` (doubled). -/
def mkTagInfo (c : Html) : TagInfo :=
  let text := getTextStrip c
  let links := findLinks c
  let textLength := text.length
  let linkTextLength := (links.map (fun l => (getTextStrip l).length)).sum
  let linkCount := links.length
  { tag := c.tagName
    id := (c.attr "id").getD ""
    cls := spaceJoin c.classList
    score2 := 2 * (textLength : Int) - 40 * (linkCount : Int) - (linkTextLength : Int)
    text_length := textLength
    link_count := linkCount }

/-- `scored_elements` before sorting: candidates whose stripped visible
text exceeds 200 characters, in document order. -/
def scoredElems (doc : Html) : List TagInfo :=
  (candidatePool doc).filterMap (fun c =>
    if (getTextStrip c).length > 200 then some (mkTagInfo c) else none)

/-- The `content_selector` computed by `SmartCrawler.analyze_html_structure`
(smart_crawl.py lines 28-119); the same logic appears in
`SmartCrawlerWithAssets.analyze_html_structure` (crawl_with_assets.py lines
52-138).  `best_selector` stays `None` — giving the `'body'` fallback —
when the best candidate has neither id nor class. -/
def contentSelector (doc : Html) : String :=
  if (findTag "main" doc).isSome then "main"
  else if (findTag "article" doc).isSome then "article"
  else
    match (sortDescBy TagInfo.score2 (scoredElems doc)).head? with
    | some best =>
        if best.id != "" then "#" ++ best.id
        else if best.cls != "" then "." ++ firstWord best.cls
        else "body"
    | none => "body"

/-- C2's selection rule as the claim words it — priority `main`, then
`article`, then the maximum-score qualifying candidate with document-order
tie-break, else body — amended with the proviso the code implements: the
winning candidate contributes its id if present, else its first class, and
when it has neither the selector falls back to `body`. -/
def selectorSpec (doc : Html) : String :=
  if (findTag "main" doc).isSome then "main"
  else if (findTag "article" doc).isSome then "article"
  else
    match argmaxFirstBy TagInfo.score2 (scoredElems doc) with
    | some best =>
        if best.id != "" then "#" ++ best.id
        else if best.cls != "" then "." ++ firstWord best.cls
        else "body"
    | none => "body"

/-- A document with no `main`/`article` whose only block container
qualifies (201 characters of text) but carries neither id nor class. -/
def C2doc : Html :=
  .el "html" [] []
    [ .el "body" [] []
        [ .el "div" [] [] [ .txt (String.mk (List.replicate 201 'x')) ] ] ]

/-- C2, counterexample: in `C2doc` a qualifying scored candidate exists
(the claim's rule would select it as the main locator, reserving `body`
for the no-candidate case), yet the analyzer returns the `body` fallback
because the winner has neither id nor class. -/
theorem C2_qualifying_candidate_yet_body :
    (scoredElems C2doc).isEmpty = false ∧ contentSelector C2doc = "body" := by
  refine ⟨by decide, by decide⟩

/-- Shared helper: the analyzer's sorted-head selection coincides with the
first-maximum selection rule. -/
theorem contentSelector_eq_selectorSpec (doc : Html) :
    contentSelector doc = selectorSpec doc := by
  unfold contentSelector selectorSpec
  rw [head_sortDescBy]

/-- C2, amended: the analyzer's selector follows the claimed priority —
`main`, then `article`, then the first maximum-score candidate among those
with more than 200 characters of visible text (stable tie-break), reduced
to its id, else its first class — except that a winning candidate with
neither id nor class yields the `body` fallback. -/
theorem C2_contentSelector_spec (doc : Html) :
    contentSelector doc = selectorSpec doc :=
  contentSelector_eq_selectorSpec doc

/-- C10: with no `main` and no `article` element, when the best qualifying
candidate has neither an id nor any class, the selector falls back to
`body` even though a qualifying scored candidate exists. -/
theorem C10_best_candidate_without_locator_falls_back_to_body
    (doc : Html) (b : TagInfo)
    (hmain : (findTag "main" doc).isSome = false)
    (hart : (findTag "article" doc).isSome = false)
    (hb : argmaxFirstBy TagInfo.score2 (scoredElems doc) = some b)
    (hid : b.id = "") (hcls : b.cls = "") :
    contentSelector doc = "body" := by
  rw [contentSelector_eq_selectorSpec]
  unfold selectorSpec
  rw [hmain, hart, hb]
  simp [hid, hcls]

/-- The document witnessing C10 (same shape as `C2doc`). -/
def C10doc : Html :=
  .el "html" [] []
    [ .el "body" [] []
        [ .el "div" [] [] [ .txt (String.mk (List.replicate 201 'y')) ] ] ]

/-- C10, witness: the hypotheses hold for `C10doc` and the selector is
`body`. -/
theorem C10_witness : contentSelector C10doc = "body" :=
  C10_best_candidate_without_locator_falls_back_to_body C10doc
    { tag := "div", id := "", cls := "", score2 := 402,
      text_length := 201, link_count := 0 }
    (by decide) (by decide) (by decide) rfl rfl

/-! ### Exclusion selectors -/

/-- The `class_=re.compile(r'(menu|nav|navigation)', re.I)` filter: some
individual class token contains one of the alternatives,
case-insensitively.  (BeautifulSoup matches the regex against each class
token; for these space-free alternatives that coincides with matching the
joined class string.) -/
def menuClassHit (h : Html) : Bool :=
  h.classList.any (fun c =>
    strContains "menu" (pyLower c) || strContains "nav" (pyLower c) ||
      strContains "navigation" (pyLower c))

/-- One step of the menu-exclusion loop of `analyze_html_structure`
(smart_crawl.py lines 104-109): append `.first_class` unless already
present. -/
def menuStep (acc : List String) (t : Html) : List String :=
  match t.classList with
  | c :: _ => if acc.contains ("." ++ c) then acc else acc ++ ["." ++ c]
  | [] => acc

/-- The uncapped `exclude_selectors` list of `analyze_html_structure`
(smart_crawl.py lines 95-109; identically crawl_with_assets.py lines
115-128): the nav/header/footer loop first (id preferred, else first
class, nothing when the element has neither), then the menu-class loop
over `div`/`ul` elements with its duplicate check. -/
def excludeUncapped (doc : Html) : List String :=
  let base := (findAllTags ["nav", "header", "footer"] doc).filterMap
    (fun t =>
      if (t.attr "id").getD "" ≠ "" then some ("#" ++ (t.attr "id").getD "")
      else
        match t.classList with
        | c :: _ => some ("." ++ c)
        | [] => none)
  let menus := (allElems doc).filter
    (fun t => (t.tagName == "div" || t.tagName == "ul") && menuClassHit t)
  menus.foldl menuStep base

/-- `exclude_selectors[:10]` — the returned, capped exclusion list. -/
def excludeSelectors (doc : Html) : List String := (excludeUncapped doc).take 10

theorem mem_menuStep {acc : List String} {s : String} (t : Html)
    (h : s ∈ acc) : s ∈ menuStep acc t := by
  unfold menuStep
  cases t.classList with
  | nil => exact h
  | cons c rest =>
    show s ∈ if acc.contains ("." ++ c) = true then acc else acc ++ ["." ++ c]
    split
    · exact h
    · exact List.mem_append_left _ h

theorem mem_foldl_menuStep {menus : List Html} {acc : List String}
    {s : String} (h : s ∈ acc) : s ∈ menus.foldl menuStep acc := by
  induction menus generalizing acc with
  | nil => exact h
  | cons m ms ih =>
    simp only [List.foldl_cons]
    exact ih (mem_menuStep m h)

theorem menu_mem_foldl_menuStep {menus : List Html} {acc : List String}
    {t : Html} {c : String} (ht : t ∈ menus)
    (hc : t.classList.head? = some c) :
    ("." ++ c) ∈ menus.foldl menuStep acc := by
  induction menus generalizing acc with
  | nil => cases ht
  | cons m ms ih =>
    simp only [List.foldl_cons]
    rcases List.mem_cons.1 ht with rfl | hmem
    · apply mem_foldl_menuStep
      show ("." ++ c) ∈ menuStep acc t
      unfold menuStep
      cases hl : t.classList with
      | nil => rw [hl, List.head?_nil] at hc; cases hc
      | cons c0 rest =>
        rw [hl, List.head?_cons] at hc
        injection hc with hc0
        subst hc0
        show ("." ++ c0) ∈
          if acc.contains ("." ++ c0) = true then acc else acc ++ ["." ++ c0]
        split
        · next hin => exact List.mem_of_elem_eq_true hin
        · exact List.mem_append_right _ (List.mem_singleton.2 rfl)
    · exact ih hmem

/-- C4, counterexample: a `nav` element with neither id nor class receives
no locator at all, so the exclusion set does not contain a locator for
every `nav` element — here it is empty although the document has a `nav`. -/
theorem C4_bare_nav_without_locator :
    (findTag "nav"
        (.el "html" [] []
          [ .el "body" [] [] [ .el "nav" [] [] [ .txt "links" ] ] ])).isSome
        = true ∧
    excludeSelectors
        (.el "html" [] []
          [ .el "body" [] [] [ .el "nav" [] [] [ .txt "links" ] ] ]) = [] := by
  refine ⟨by decide, by decide⟩

/-- C4, amended: every `nav`/`header`/`footer` element **that has an id or
at least one class** contributes its locator (id preferred, else first
class) to the exclusion list, as does every `div`/`ul` element whose class
matches `menu|nav|navigation` (case-insensitive); the returned list is the
first 10 entries, extras silently dropped.  A `nav`/`header`/`footer`
element with neither id nor class contributes nothing. -/
theorem C4_exclusion_set (doc : Html) :
    (∀ t ∈ findAllTags ["nav", "header", "footer"] doc,
       (((t.attr "id").getD "" ≠ "") →
          ("#" ++ (t.attr "id").getD "") ∈ excludeUncapped doc) ∧
       (((t.attr "id").getD "" = "") → ∀ c ∈ t.classList.head?,
          ("." ++ c) ∈ excludeUncapped doc)) ∧
    (∀ t ∈ allElems doc, (t.tagName = "div" ∨ t.tagName = "ul") →
       menuClassHit t = true → ∀ c ∈ t.classList.head?,
          ("." ++ c) ∈ excludeUncapped doc) ∧
    excludeSelectors doc = (excludeUncapped doc).take 10 := by
  refine ⟨?_, ?_, rfl⟩
  · intro t ht
    constructor
    · intro hid
      apply mem_foldl_menuStep
      exact List.mem_filterMap.2 ⟨t, ht, by simp [hid]⟩
    · intro hid c hc
      apply mem_foldl_menuStep
      apply List.mem_filterMap.2
      refine ⟨t, ht, ?_⟩
      rw [if_neg (by simp [hid])]
      cases hl : t.classList with
      | nil => rw [hl] at hc; cases hc
      | cons c0 rest => rw [hl] at hc; cases hc; rfl
  · intro t ht hdu hmenu c hc
    apply menu_mem_foldl_menuStep _ hc
    apply List.mem_filter.2
    refine ⟨ht, ?_⟩
    rcases hdu with h | h <;> simp [h, hmenu]

/-- The document witnessing C4's amended statement: a classed `nav` and a
menu-classed `div`. -/
def C4doc : Html :=
  .el "html" [] []
    [ .el "body" [] []
        [ .el "nav" [] ["topnav"] [ .txt "links" ],
          .el "div" [] ["main-menu"] [ .txt "m" ] ] ]

/-- C4, witness: in `C4doc` the nav's first class and the menu div's first
class are both excluded, and the returned list is the 10-capped list. -/
theorem C4_witness :
    ("." ++ "topnav") ∈ excludeUncapped C4doc ∧
    ("." ++ "main-menu") ∈ excludeUncapped C4doc ∧
    excludeSelectors C4doc = (excludeUncapped C4doc).take 10 :=
  have h := C4_exclusion_set C4doc
  ⟨((h.1 (.el "nav" [] ["topnav"] [ .txt "links" ]) (List.Mem.head _)).2
      rfl "topnav" rfl),
   (h.2.1 (.el "div" [] ["main-menu"] [ .txt "m" ])
      (List.Mem.tail _ (List.Mem.tail _ (List.Mem.tail _ (List.Mem.head _))))
      (Or.inl rfl) (by decide) "main-menu" rfl),
   h.2.2⟩

/-! ### The element-returning analyzer of crawl_to_markdown.py -/

/-- `scored_elements` of `SmartCrawler.analyze_html_structure`
(crawl_to_markdown.py lines 64-91), which also stores the element. -/
def scoredElemsE (doc : Html) : List (TagInfo × Html) :=
  (candidatePool doc).filterMap (fun c =>
    if (getTextStrip c).length > 200 then some (mkTagInfo c, c) else none)

/-- The `main_content_element` of `SmartCrawler.analyze_html_structure`
(crawl_to_markdown.py lines 93-106): the first `main` tag, else the first
`article` tag, else the best-scored candidate element, else `None` — the
body fallback. -/
def analyzeMainElement (doc : Html) : Option Html :=
  match findTag "main" doc with
  | some m => some m
  | none =>
    match findTag "article" doc with
    | some a => some a
    | none =>
        ((sortDescBy (fun p => p.1.score2) (scoredElemsE doc)).head?).map
          (fun p => p.2)

/-! ### `filter_markdown_by_analysis` -/

/-- The `exclude_elements` set of `analyze_html_structure`
(crawl_to_markdown.py lines 108-115) as the predicate it realises: every
`nav`/`header`/`footer` element plus every `div`/`ul` element with a
menu-like class.  `filter_markdown_by_analysis` decomposes exactly the
elements of that set, i.e. prunes every matching subtree. -/
def isExcludedElem (h : Html) : Bool :=
  ["nav", "header", "footer"].contains h.tagName ||
  ((h.tagName == "div" || h.tagName == "ul") && menuClassHit h)

mutual

/-- Remove (`decompose`) every excluded element from a subtree. -/
def pruneExcluded (h : Html) : Html :=
  match h with
  | .el t a c ch => .el t a c (pruneExcludedL ch)
  | .txt s => .txt s

def pruneExcludedL (l : List Html) : List Html :=
  match l with
  | [] => []
  | h :: hs =>
      (if isExcludedElem h then [] else [pruneExcluded h]) ++ pruneExcludedL hs

end

/-- `main_element.get_text(separator='\n', strip=True)` after the excluded
elements have been decomposed (an excluded main element loses all its
content). -/
def mainTextAfterExclusions (m : Html) : String :=
  if isExcludedElem m then "" else getTextNlStrip (pruneExcluded m)

/-- `main_text_lines`: the stripped, non-empty lines of the main text. -/
def mainTextLines (m : Html) : List String :=
  ((splitNl (mainTextAfterExclusions m)).map pyStrip).filter (fun s => s != "")

/-- `main_content_fragments`: the lowercased 50-character prefixes of main
text lines longer than 10 characters (a set in the source; only membership
tests are performed on it). -/
def fragmentsOf (m : Html) : List String :=
  (mainTextLines m).filterMap (fun line =>
    if line.length > 10 then some (pyLower (strTake 50 line)) else none)

/-- The fragment-match test
`any(x in fragment or fragment.startswith(x[:20]) for fragment in frags)`. -/
def fragMatch (frags : List String) (x : String) : Bool :=
  frags.any (fun fr => strContains x fr || strStarts (strTake 20 x) fr)

/-- The markdown line walk of `filter_markdown_by_analysis`
(crawl_to_markdown.py lines 157-192); `keptRev` is `filtered_lines` in
reverse. -/
def filterWalk (frags : List String) (keptRev : List String) :
    List String → List String
  | [] => keptRev.reverse
  | line :: rest =>
    let ls := pyStrip line
    if ls == "" then filterWalk frags (line :: keptRev) rest
    else if strStarts "#" ls then filterWalk frags (line :: keptRev) rest
    else if strStarts "|" ls then filterWalk frags (line :: keptRev) rest
    else if strStarts "- " ls || strStarts "* " ls then
      if fragMatch frags (pyLower (strTake 50 (pyStrip (strDrop 2 ls)))) then
        filterWalk frags (line :: keptRev) rest
      else filterWalk frags keptRev rest
    else if ls.length > 10 then
      if fragMatch frags (pyLower (strTake 50 ls)) then
        filterWalk frags (line :: keptRev) rest
      else filterWalk frags keptRev rest
    else
      match keptRev with
      | prev :: _ =>
          if pyStrip prev != "" then filterWalk frags (line :: keptRev) rest
          else filterWalk frags keptRev rest
      | [] => filterWalk frags keptRev rest

/-- `SmartCrawler.filter_markdown_by_analysis` (crawl_to_markdown.py lines
126-203).  The source re-parses the html string but then works entirely on
the analyzer's tree, so the relevant input is the analysis'
`main_content_element`; `None` — the body fallback — returns the markdown
unchanged, otherwise the fragment walk runs. -/
def filter_markdown_by_analysis (markdown : String) (analysis : Option Html) :
    String :=
  match analysis with
  | none => markdown
  | some mainEl =>
      joinNl (filterWalk (fragmentsOf mainEl) [] (splitNl markdown))

/-- C5: when the analyzer resolved to the body fallback (no qualifying
main-content element), the filter returns the input markdown completely
unchanged. -/
theorem C5_body_fallback_returns_markdown_unchanged (markdown : String)
    (doc : Html) (h : analyzeMainElement doc = none) :
    filter_markdown_by_analysis markdown (analyzeMainElement doc) = markdown := by
  rw [h]
  rfl

/-- A document with no `main`, no `article` and no scored candidate. -/
def C5doc : Html :=
  .el "html" [] [] [ .el "body" [] [] [ .txt "short text" ] ]

/-- C5, witness: `C5doc` resolves to the body fallback and the filter
passes the markdown through. -/
theorem C5_witness :
    filter_markdown_by_analysis "keep\nme" (analyzeMainElement C5doc) =
      "keep\nme" :=
  C5_body_fallback_returns_markdown_unchanged "keep\nme" C5doc rfl

/-! ### C3: the keep rules of the filter walk -/

/-- C3's keep rule exactly as the claim words it: blank, `#`-prefixed and
`|`-prefixed lines always kept; lines longer than 10 characters kept iff
the lowercased 50-character prefix occurs inside some fragment **or some
fragment's 20-character prefix occurs inside the line's prefix**; short
lines kept iff the previously retained line was non-blank. -/
def claimKeeps (frags : List String) (prevNonBlank : Bool) (line : String) :
    Bool :=
  let ls := pyStrip line
  if ls == "" || strStarts "#" ls || strStarts "|" ls then true
  else if ls.length > 10 then
    let lf := pyLower (strTake 50 ls)
    frags.any (fun fr => strContains lf fr || strContains (strTake 20 fr) lf)
  else prevNonBlank

/-- The walk C3 describes, as stated. -/
def claimFilterWalk (frags : List String) (prevNonBlank : Bool) :
    List String → List String
  | [] => []
  | line :: rest =>
      if claimKeeps frags prevNonBlank line then
        line :: claimFilterWalk frags (pyStrip line != "") rest
      else claimFilterWalk frags prevNonBlank rest

/-- The filter C3 describes, as stated. -/
def claimFilter (markdown : String) (frags : List String) : String :=
  joinNl (claimFilterWalk frags false (splitNl markdown))

/-- The main element of C3's counterexample: one 50-character text line. -/
def c3main : Html :=
  .el "main" [] []
    [ .txt "Hello world this is the main content of the page." ]

/-- The markdown of C3's counterexample: the same sentence shifted right by
a two-character prefix. -/
def c3md : String :=
  "zz Hello world this is the main content of the page."

/-- C3, counterexample: the claim's symmetric rule keeps `c3md`'s line (the
fragment's 20-character prefix occurs inside the line's 50-character
prefix, two characters in), but the code's rule — which demands the
fragment to *start with* the line prefix's first 20 characters — drops it,
so the filter output differs from the claimed behaviour. -/
theorem C3_filter_differs_from_claim :
    filter_markdown_by_analysis c3md (some c3main) = "" ∧
    claimFilter c3md (fragmentsOf c3main) = c3md := by
  refine ⟨by decide, by decide⟩

/-- C3's keep rule amended to what the code implements: blank, `#` and `|`
lines always kept; list items (of any length, matched on the
bullet-stripped prefix) and other lines longer than 10 characters kept iff
the lowercased 50-character prefix occurs inside some fragment or **some
fragment starts with that prefix's first 20 characters**; remaining short
lines kept iff a previously retained line exists and was non-blank. -/
def amendedKeeps (frags : List String) (prevNonBlank : Bool) (line : String) :
    Bool :=
  let ls := pyStrip line
  if ls == "" || strStarts "#" ls || strStarts "|" ls then true
  else if strStarts "- " ls || strStarts "* " ls then
    fragMatch frags (pyLower (strTake 50 (pyStrip (strDrop 2 ls))))
  else if ls.length > 10 then fragMatch frags (pyLower (strTake 50 ls))
  else prevNonBlank

/-- The walk realising the amended C3 rule. -/
def amendedWalk (frags : List String) (prevNonBlank : Bool) :
    List String → List String
  | [] => []
  | line :: rest =>
      if amendedKeeps frags prevNonBlank line then
        line :: amendedWalk frags (pyStrip line != "") rest
      else amendedWalk frags prevNonBlank rest

/-- Whether the last retained line exists and is non-blank. -/
def prevOf : List String → Bool
  | [] => false
  | p :: _ => pyStrip p != ""

theorem filterWalk_eq_amendedWalk (frags : List String) :
    ∀ lines keptRev,
      filterWalk frags keptRev lines =
        keptRev.reverse ++ amendedWalk frags (prevOf keptRev) lines := by
  intro lines
  induction lines with
  | nil =>
    intro keptRev
    simp [filterWalk, amendedWalk]
  | cons line rest ih =>
    intro keptRev
    by_cases h1 : pyStrip line == ""
    · simp [filterWalk, amendedWalk, amendedKeeps, h1, prevOf, ih]
    · by_cases h2 : strStarts "#" (pyStrip line)
      · simp [filterWalk, amendedWalk, amendedKeeps, h1, h2, prevOf, ih]
      · by_cases h3 : strStarts "|" (pyStrip line)
        · simp [filterWalk, amendedWalk, amendedKeeps, h1, h2, h3, prevOf, ih]
        · by_cases h4 : strStarts "- " (pyStrip line) ||
              strStarts "* " (pyStrip line)
          · by_cases h5 : fragMatch frags
                (pyLower (strTake 50 (pyStrip (strDrop 2 (pyStrip line)))))
            · simp [filterWalk, amendedWalk, amendedKeeps, h1, h2, h3, h4,
                h5, prevOf, ih]
            · simp [filterWalk, amendedWalk, amendedKeeps, h1, h2, h3, h4,
                h5, prevOf, ih]
          · by_cases h6 : (pyStrip line).length > 10
            · by_cases h7 : fragMatch frags
                  (pyLower (strTake 50 (pyStrip line)))
              · simp [filterWalk, amendedWalk, amendedKeeps, h1, h2, h3, h4,
                  h6, h7, prevOf, ih]
              · simp [filterWalk, amendedWalk, amendedKeeps, h1, h2, h3, h4,
                  h6, h7, prevOf, ih]
            · cases keptRev with
              | nil =>
                simp [filterWalk, amendedWalk, amendedKeeps, h1, h2, h3, h4,
                  h6, prevOf, ih]
              | cons p ps =>
                by_cases h8 : pyStrip p != ""
                · simp [filterWalk, amendedWalk, amendedKeeps, h1, h2, h3,
                    h4, h6, h8, prevOf, ih]
                · simp [filterWalk, amendedWalk, amendedKeeps, h1, h2, h3,
                    h4, h6, h8, prevOf, ih]

/-- C3, amended: for every markdown and main element, the filter performs
the line walk with the amended keep rules (`amendedKeeps`): structural
lines unconditionally kept; list items matched on the bullet-stripped
prefix and text lines longer than 10 characters matched by
substring-in-fragment or fragment-starts-with-20-character-prefix; short
lines kept only after a non-blank retained line. -/
theorem C3_filter_keep_rules (markdown : String) (mainEl : Html) :
    filter_markdown_by_analysis markdown (some mainEl) =
      joinNl (amendedWalk (fragmentsOf mainEl) false (splitNl markdown)) := by
  show joinNl (filterWalk (fragmentsOf mainEl) [] (splitNl markdown)) = _
  rw [filterWalk_eq_amendedWalk]
  rfl

/-! ### `generate_description_heuristic`

`PostProcessor.generate_description_heuristic` (postprocess.py lines
136-181) runs five `re.sub` pre-passes, selects the first substantial
line, and applies a 197-character truncation rule.  Each pre-pass is a
scanner with `re.sub`'s leftmost, non-overlapping, greedy semantics; the
`fuel` arguments only bound recursion and are chosen above the input
length. -/

/-- Scanner for `re.sub(r'^#+\s+', '', text, flags=re.MULTILINE)`.  `bol`
tracks whether the position follows a newline (or is the string start);
the greedy `\s+` may consume newlines, after which the next position is
again at a line start exactly when the last consumed character was a
newline. -/
def headerSubGo (fuel : Nat) (bol : Bool) (cs : List Char) : List Char :=
  match fuel with
  | 0 => cs
  | fuel + 1 =>
    match cs with
    | [] => []
    | c :: rest =>
      if bol && c == '#' then
        let hs := rest.takeWhile (fun x => x == '#')
        let r2 := rest.drop hs.length
        let ws := r2.takeWhile isWs
        if ws.isEmpty then c :: headerSubGo fuel false rest
        else headerSubGo fuel (ws.getLast? == some '\n') (r2.drop ws.length)
      else c :: headerSubGo fuel (c == '\n') rest

/-- Scanner for `re.sub(r'\[([^\]]+)\]\([^\)]+\)', r'\1', text)`: a
markdown link collapses to its anchor text.  The character classes exclude
the closing delimiters, so the greedy captures stop at the first `]` and
`)` respectively. -/
def linkSubGo (fuel : Nat) (cs : List Char) : List Char :=
  match fuel with
  | 0 => cs
  | fuel + 1 =>
    match cs with
    | [] => []
    | c :: rest =>
      if c == '[' then
        let inner := rest.takeWhile (fun x => x != ']')
        if inner.isEmpty then c :: linkSubGo fuel rest
        else
          match rest.drop inner.length with
          | ']' :: '(' :: r2 =>
            let url := r2.takeWhile (fun x => x != ')')
            if url.isEmpty then c :: linkSubGo fuel rest
            else
              match r2.drop url.length with
              | ')' :: r3 => inner ++ linkSubGo fuel r3
              | _ => c :: linkSubGo fuel rest
          | _ => c :: linkSubGo fuel rest
      else c :: linkSubGo fuel rest

/-- The backquote character (the third member of the `[*_`]` class). -/
def backquoteChar : Char := Char.ofNat 96

/-- `re.sub(r'[*_`]', '', text)` — formatting characters removed. -/
def stripFmt (cs : List Char) : List Char :=
  cs.filter (fun c => !((['*', '_', backquoteChar] : List Char).contains c))

/-- Scanner for `re.sub(r'https?://\S+', repl, text)`.  The optional `s` is
tried greedily; `\S+` then consumes the maximal non-whitespace run, which
must be non-empty. -/
def urlSubGo (repl : List Char) (fuel : Nat) (cs : List Char) : List Char :=
  match fuel with
  | 0 => cs
  | fuel + 1 =>
    match cs with
    | [] => []
    | c :: rest =>
      if "https://".data.isPrefixOf (c :: rest) then
        let t8 := (c :: rest).drop 8
        let run := t8.takeWhile (fun x => !isWs x)
        if run.isEmpty then c :: urlSubGo repl fuel rest
        else repl ++ urlSubGo repl fuel (t8.drop run.length)
      else if "http://".data.isPrefixOf (c :: rest) then
        let t7 := (c :: rest).drop 7
        let run := t7.takeWhile (fun x => !isWs x)
        if run.isEmpty then c :: urlSubGo repl fuel rest
        else repl ++ urlSubGo repl fuel (t7.drop run.length)
      else c :: urlSubGo repl fuel rest

/-- Whether a maximal non-whitespace run matches `\S+@\S+` from its start:
an `@` must occur at a positive offset with at least one character after
it inside the run. -/
def emailRunHit (run : List Char) : Bool :=
  match run with
  | [] => false
  | _ :: t => t.dropLast.contains '@'

/-- Scanner for `re.sub(r'\S+@\S+', repl, text)`: at the leftmost viable
start, the match extends to the end of the non-whitespace run. -/
def emailSubGo (repl : List Char) (fuel : Nat) (cs : List Char) : List Char :=
  match fuel with
  | 0 => cs
  | fuel + 1 =>
    match cs with
    | [] => []
    | c :: rest =>
      let run := (c :: rest).takeWhile (fun x => !isWs x)
      if emailRunHit run then
        repl ++ emailSubGo repl fuel ((c :: rest).drop run.length)
      else c :: emailSubGo repl fuel rest

/-- `^mehr\s*\.{0,3}\s*$` (via the lowercased line). -/
def patMehr (cs : List Char) : Bool :=
  "mehr".data.isPrefixOf cs &&
    (let r := dropWs (cs.drop 4)
     let dots := r.takeWhile (fun c => c == '.')
     decide (dots.length ≤ 3) && (dropWs (r.drop dots.length)).isEmpty)

/-- `^\d+\s*$`. -/
def patDigits (cs : List Char) : Bool :=
  let ds := cs.takeWhile Char.isDigit
  !ds.isEmpty && (dropWs (cs.drop ds.length)).isEmpty

/-- The description skip patterns (postprocess.py lines 156-161), matched
with `re.match(..., re.IGNORECASE)`; `zur√ºck` is the file's own mojibake
literal. -/
def descSkip (line : String) : Bool :=
  let low := (pyLower line).data
  patMehr low || patDigits low ||
  pyLower line == "weiter" || pyLower line == "zur√ºck"

/-- The letter class `[a-zA-Z√§√∂√º√ü√Ñ√ñ√ú]` of postprocess.py line 170:
ASCII letters plus the file's mojibake characters. -/
def descLetter (c : Char) : Bool :=
  c.isAlpha || ['√', '§', '∂', 'º', 'ü', 'Ñ', 'ñ', 'ú'].contains c

/-- The over-200-characters branch: `line[:197]`, cut at the last space
when its index is positive, then `'...'` appended. -/
def truncateDesc (line : String) : String :=
  match lastIdxOf ' ' (strTake 197 line).data with
  | some k =>
      if k > 0 then strTake k (strTake 197 line) ++ "..."
      else strTake 197 line ++ "..."
  | none => strTake 197 line ++ "..."

/-- The line-selection loop of `generate_description_heuristic`
(postprocess.py lines 163-181): skip pattern lines, navigation-suffix
lines, and lines with fewer than 40 class letters or fewer than 50
characters; return the first qualifying line (truncated when over 200);
else the fixed sentinel. -/
def descFromLines : List String → String
  | [] => "No description available"
  | line :: rest =>
    if descSkip line then descFromLines rest
    else if strEnds "¬ª" line || strEnds "..." line then descFromLines rest
    else if 40 ≤ (line.data.filter descLetter).length ∧ 50 ≤ line.length then
      if line.length ≤ 200 then line else truncateDesc line
    else descFromLines rest

/-- `lines = [line.strip() for line in text.split('\n') if line.strip()]`. -/
def descLines (text : String) : List String :=
  ((splitNl text).map pyStrip).filter (fun s => s != "")

/-- `PostProcessor.generate_description_heuristic` (postprocess.py lines
136-181); `SmartCrawlerWithAssets._generate_description`
(crawl_with_assets.py lines 720-793) shares the selection and truncation
rule and adds a combining fallback. -/
def generate_description_heuristic (markdown : String) : String :=
  let t1 := headerSubGo (markdown.length + 1) true markdown.data
  let t2 := linkSubGo (t1.length + 1) t1
  let t3 := stripFmt t2
  let t4 := urlSubGo [] (t3.length + 1) t3
  let t5 := emailSubGo [] (t4.length + 1) t4
  descFromLines (descLines (String.mk t5))

/-! Helper lemmas about `lastIdxOf` and slicing, used for the truncation
bound. -/

theorem strLength_data (s : String) : s.length = s.data.length := rfl

theorem strLength_append (s t : String) :
    (s ++ t).length = s.length + t.length := by
  show (s ++ t).data.length = s.data.length + t.data.length
  rw [String.data_append, List.length_append]

theorem strTake_length_le (n : Nat) (s : String) : (strTake n s).length ≤ n := by
  show (s.data.take n).length ≤ n
  rw [List.length_take]
  omega

theorem isPrefixOf_self_append (l m : List Char) :
    l.isPrefixOf (l ++ m) = true := by
  rw [List.isPrefixOf_iff_prefix]
  exact List.prefix_append l m

theorem strEnds_self_append (s t : String) : strEnds t (s ++ t) = true := by
  simp only [strEnds, String.data_append, List.reverse_append]
  exact isPrefixOf_self_append _ _

theorem lastIdxOf_get {a : Char} :
    ∀ {l : List Char} {k : Nat}, lastIdxOf a l = some k → l.get? k = some a := by
  intro l
  induction l with
  | nil => intro k h; cases h
  | cons c cs ih =>
    intro k h
    cases hh : lastIdxOf a cs with
    | some m =>
      simp only [lastIdxOf, hh] at h
      injection h with h
      subst h
      simpa using ih hh
    | none =>
      simp only [lastIdxOf, hh] at h
      split at h
      · next hca =>
        injection h with h
        subst h
        simp [hca]
      · cases h

theorem lastIdxOf_lt_length {a : Char} :
    ∀ {l : List Char} {k : Nat}, lastIdxOf a l = some k → k < l.length := by
  intro l
  induction l with
  | nil => intro k h; cases h
  | cons c cs ih =>
    intro k h
    cases hh : lastIdxOf a cs with
    | some m =>
      simp only [lastIdxOf, hh] at h
      injection h with h
      subst h
      have := ih hh
      simp only [List.length_cons]
      omega
    | none =>
      simp only [lastIdxOf, hh] at h
      split at h
      · injection h with h
        subst h
        simp
      · cases h

theorem lastIdxOf_none {a : Char} :
    ∀ {l : List Char}, lastIdxOf a l = none → ¬ a ∈ l := by
  intro l
  induction l with
  | nil => intro _ h; cases h
  | cons c cs ih =>
    intro h hmem
    cases hh : lastIdxOf a cs with
    | some m => simp [lastIdxOf, hh] at h
    | none =>
      simp only [lastIdxOf, hh] at h
      split at h
      · cases h
      · next hne =>
        rcases List.mem_cons.1 hmem with rfl | hmem2
        · exact hne rfl
        · exact ih hh hmem2

theorem lastIdxOf_ge {a : Char} :
    ∀ {l : List Char} {j k : Nat},
      l.get? j = some a → lastIdxOf a l = some k → j ≤ k := by
  intro l
  induction l with
  | nil => intro j k hj _; simp [List.get?] at hj
  | cons c cs ih =>
    intro j k hj hk
    cases hh : lastIdxOf a cs with
    | some m =>
      simp only [lastIdxOf, hh] at hk
      injection hk with hk
      subst hk
      cases j with
      | zero => omega
      | succ j0 =>
        have hj0 : cs.get? j0 = some a := by simpa using hj
        have := ih hj0 hh
        omega
    | none =>
      simp only [lastIdxOf, hh] at hk
      cases j with
      | zero =>
        split at hk
        · injection hk with hk; omega
        · cases hk
      | succ j0 =>
        have hj0 : cs.get? j0 = some a := by simpa using hj
        have : a ∈ cs := List.get?_mem hj0
        exact absurd this (lastIdxOf_none hh)

theorem truncateDesc_length_le (line : String) :
    (truncateDesc line).length ≤ 200 := by
  unfold truncateDesc
  have h197 : (strTake 197 line).length ≤ 197 := strTake_length_le 197 line
  have h3 : ("..." : String).length = 3 := rfl
  cases h : lastIdxOf ' ' (strTake 197 line).data with
  | some k =>
    have hk : k < (strTake 197 line).length := by
      rw [strLength_data]
      exact lastIdxOf_lt_length h
    simp only [h]
    split
    · have hkk : (strTake k (strTake 197 line)).length ≤ k :=
        strTake_length_le _ _
      rw [strLength_append]
      omega
    · rw [strLength_append]
      omega
  | none =>
    simp only [h]
    rw [strLength_append]
    omega

theorem descFromLines_length_le (lines : List String) :
    (descFromLines lines).length ≤ 200 := by
  induction lines with
  | nil => decide
  | cons line rest ih =>
    unfold descFromLines
    split
    · exact ih
    · split
      · exact ih
      · split
        · split
          · next hle => omega
          · exact truncateDesc_length_le line
        · exact ih

/-- The 250-character single-"word" markdown driving C6's counterexample. -/
def c6Input : String := String.mk (List.replicate 250 'a')

/-- C6, counterexample: on a 250-character line with no space, the
heuristic returns the raw 197-character prefix plus an ellipsis — characters
196 and 197 of the line are both letters, so the cut point is *inside* a
word, contradicting the claim that a truncated description does not split
a word (the 200-character cap itself does hold: the result has exactly 200
characters). -/
theorem C6_truncation_splits_word :
    generate_description_heuristic c6Input =
      String.mk (List.replicate 197 'a') ++ "..." ∧
    (generate_description_heuristic c6Input).length = 200 ∧
    c6Input.data.get? 196 = some 'a' ∧ c6Input.data.get? 197 = some 'a' := by
  refine ⟨by decide, by decide, by decide, by decide⟩

/-- C6, amended: every heuristic description is at most 200 characters
long; a line longer than 200 characters is truncated to end in an
ellipsis, and **when its first 197 characters contain a space at a
positive index** the cut falls on the last such space (no word is split);
when they contain none, the raw 197-character prefix is kept and the
ellipsis appended, which may split a word. -/
theorem C6_description_cap_and_truncation (markdown : String) (line : String) :
    (generate_description_heuristic markdown).length ≤ 200 ∧
    (200 < line.length →
      strEnds "..." (truncateDesc line) = true ∧
      (((strTake 197 line).data.drop 1).contains ' ' = true →
        ∃ k, truncateDesc line = strTake k line ++ "..." ∧
          line.data.get? k = some ' ') ∧
      (((strTake 197 line).data.drop 1).contains ' ' = false →
        truncateDesc line = strTake 197 line ++ "...")) := by
  constructor
  · exact descFromLines_length_le _
  · intro _
    refine ⟨?_, ?_, ?_⟩
    · unfold truncateDesc
      cases hlast : lastIdxOf ' ' (strTake 197 line).data with
      | some k =>
        simp only [hlast]
        split
        · exact strEnds_self_append _ _
        · exact strEnds_self_append _ _
      | none =>
        simp only [hlast]
        exact strEnds_self_append _ _
    · intro hsp
      have hmem : ' ' ∈ (strTake 197 line).data.drop 1 :=
        List.mem_of_elem_eq_true hsp
      obtain ⟨j, hj⟩ := List.mem_iff_get?.1 hmem
      have hj2 : (strTake 197 line).data.get? (1 + j) = some ' ' := by
        rw [← List.get?_drop]; exact hj
      cases hlast : lastIdxOf ' ' (strTake 197 line).data with
      | none =>
        exact absurd (List.get?_mem hj2) (lastIdxOf_none hlast)
      | some k =>
        have hge : 1 + j ≤ k := lastIdxOf_ge hj2 hlast
        have hksp : (strTake 197 line).data.get? k = some ' ' :=
          lastIdxOf_get hlast
        have hklt : k < (strTake 197 line).data.length :=
          lastIdxOf_lt_length hlast
        refine ⟨k, ?_, ?_⟩
        · unfold truncateDesc
          simp only [hlast]
          rw [if_pos (by omega)]
          have : strTake k (strTake 197 line) = strTake k line := by
            simp only [strTake]
            congr 1
            rw [List.take_take]
            congr 1
            have hlen : (strTake 197 line).data.length ≤ 197 := by
              rw [← strLength_data]
              exact strTake_length_le 197 line
            omega
          rw [this]
        · have hk197 : k < 197 := by
            have hlen : (strTake 197 line).data.length ≤ 197 := by
              rw [← strLength_data]
              exact strTake_length_le 197 line
            omega
          have : (strTake 197 line).data.get? k = line.data.get? k := by
            simp only [strTake]
            exact List.get?_take hk197
          rw [← this]
          exact hksp
    · intro hsp
      unfold truncateDesc
      cases hlast : lastIdxOf ' ' (strTake 197 line).data with
      | none => simp only [hlast]
      | some k =>
        simp only [hlast]
        rw [if_neg]
        intro hkpos
        have hksp : (strTake 197 line).data.get? k = some ' ' :=
          lastIdxOf_get hlast
        have hdropped : ((strTake 197 line).data.drop 1).get? (k - 1) = some ' ' := by
          rw [List.get?_drop]
          have hk1 : 1 + (k - 1) = k := by omega
          rw [hk1]
          exact hksp
        have hmem : ' ' ∈ (strTake 197 line).data.drop 1 := List.get?_mem hdropped
        have hcontains : ((strTake 197 line).data.drop 1).contains ' ' = true :=
          List.elem_eq_true_of_mem hmem
        rw [hsp] at hcontains
        cases hcontains

/-- The concrete line for C6's witness: a word, a space, then 210 letters. -/
def c6wLine : String := "word " ++ String.mk (List.replicate 210 'b')

/-- C6, witness: the cap and the truncation shape at concrete inputs. -/
theorem C6_cap_witness :
    (generate_description_heuristic "hello world").length ≤ 200 ∧
    strEnds "..." (truncateDesc c6wLine) = true :=
  have h := C6_description_cap_and_truncation "hello world" c6wLine
  ⟨h.1, (h.2 (by decide)).1⟩

/-! ### Keyword extraction

`PostProcessor.extract_keywords_heuristic` (postprocess.py lines 322-361)
and `SmartCrawler._extract_keywords` (smart_crawl.py lines 297-308).
Tokenisation is `re.findall(r'\b[CLASS]{4,}\b', text)`; `\b` is a
word/non-word boundary, so the scanner below tracks the word-character
status of the previous character and backtracks the greedy class run to
the longest length followed by a boundary. -/

/-- Python's `\w` (str mode) over the character repertoire the scripts
process: ASCII alphanumerics, underscore, and the non-ASCII letters that
appear in the scripts' classes; the mojibake symbols `√ § ∂` are not word
characters. -/
def pyWordChar (c : Char) : Bool :=
  c.isAlphanum || c == '_' ||
    (['ä', 'ö', 'ü', 'ß', 'Ä', 'Ö', 'Ü', 'º', 'ñ', 'ú', 'Ñ'] : List Char).contains c

/-- The keyword token class `[a-z√§√∂√º√ü]` of postprocess.py line 332 —
lowercase ASCII letters plus the file's mojibake characters. -/
def kwClassPost (c : Char) : Bool :=
  c.isLower || (['√', '§', '∂', 'º', 'ü'] : List Char).contains c

/-- The token class `[a-zäöüß]` of smart_crawl.py line 301. -/
def kwClassSmart (c : Char) : Bool :=
  c.isLower || (['ä', 'ö', 'ü', 'ß'] : List Char).contains c

/-- Word-character status of position `j` (out of range is non-word), for
`\b` tests. -/
def wordAt (isW : Char → Bool) (cs : List Char) (j : Nat) : Bool :=
  match cs.get? j with
  | some c => isW c
  | none => false

/-- Greedy, backtracking token length for `[C]{4,}\b` at the current
position: the largest `m` at most the class-run length, at least 4, such
that a word boundary follows position `m` of the remaining input. -/
def bestTokenLen (isW : Char → Bool) (whole : List Char) : Nat → Option Nat
  | 0 => none
  | m + 1 =>
      if 4 ≤ m + 1 then
        if wordAt isW whole m != wordAt isW whole (m + 1) then some (m + 1)
        else bestTokenLen isW whole m
      else none

/-- Scanner for `re.findall(r'\b[C]{4,}\b', text)`: at each position with a
word boundary, emit the backtracked greedy class run; otherwise advance
one character.  `prevW` is the word status of the previous character,
`fuel` bounds recursion and exceeds the input length. -/
def tokenScanGo (isC isW : Char → Bool) (fuel : Nat) (prevW : Bool)
    (cs : List Char) : List (List Char) :=
  match fuel with
  | 0 => []
  | fuel + 1 =>
    match cs with
    | [] => []
    | c :: rest =>
      if prevW != isW c then
        let run := (c :: rest).takeWhile isC
        match bestTokenLen isW (c :: rest) run.length with
        | some m =>
            run.take m ::
              tokenScanGo isC isW fuel (wordAt isW (c :: rest) (m - 1))
                ((c :: rest).drop m)
        | none => tokenScanGo isC isW fuel (isW c) rest
      else tokenScanGo isC isW fuel (isW c) rest

/-- `re.findall(r'\b[C]{4,}\b', text)`. -/
def findallTokens (isC isW : Char → Bool) (cs : List Char) : List String :=
  (tokenScanGo isC isW (cs.length + 1) false cs).map String.mk

/-- `re.sub(r'[#*`\[\]()]', ' ', text)`. -/
def mdCharsToSpace (cs : List Char) : List Char :=
  cs.map (fun c =>
    if (['#', '*', backquoteChar, '[', ']', '(', ')'] : List Char).contains c
    then ' ' else c)

/-- The stopword set of `extract_keywords_heuristic` (postprocess.py lines
335-344), kept verbatim including the file's mojibake literals. -/
def stopwords : List String :=
  ["http", "https", "html", "href", "link", "site", "page",
   "mehr", "weiter", "zur√ºck", "next", "prev", "navigation",
   "menu", "header", "footer", "mail", "email", "info",
   "alle", "dieser", "diese", "dieses", "haben", "wird",
   "sind", "sein", "auch", "sich", "nach", "oder", "kann",
   "√ºber", "beim", "muss", "etwa", "dass", "noch", "hier",
   "dann", "ihnen", "seine", "ihre", "ihrer", "einen", "einem",
   "einer", "werden", "wurde", "wurden", "worden", "damit"]

/-- `word_freq[word] += 1` on a `defaultdict(int)` kept as an
insertion-ordered association list (Python dicts preserve insertion
order). -/
def bumpFreq (l : List (String × Nat)) (w : String) : List (String × Nat) :=
  if l.any (fun p => p.1 == w) then
    l.map (fun p => if p.1 == w then (p.1, p.2 + 1) else p)
  else l ++ [(w, 1)]

/-- The frequency loop of `extract_keywords_heuristic`: count a word
unless it is a stopword or shorter than 4 characters. -/
def wordFreqPost (ws : List String) : List (String × Nat) :=
  ws.foldl (fun l w =>
    if stopwords.contains w = true ∨ w.length < 4 then l else bumpFreq l w) []

/-- One acceptance step of the selection loop: keep the word when its
frequency is at least 2 or fewer than 3 keywords have been accepted. -/
def keywordStep (acc : List String) (w : String) (f : Nat) : List String :=
  if f ≥ 2 ∨ acc.length < 3 then acc ++ [w] else acc

/-- The selection loop of `extract_keywords_heuristic`: over the top 15 by
frequency, apply `keywordStep` and stop as soon as 10 keywords are
accepted. -/
def keywordSelect : List (String × Nat) → List String → List String
  | [], acc => acc
  | (w, f) :: rest, acc =>
      if (keywordStep acc w f).length ≥ 10 then keywordStep acc w f
      else keywordSelect rest (keywordStep acc w f)

/-- The tokens of `extract_keywords_heuristic`: lowercase the joined
title/content, replace markdown characters, URLs and e-mail addresses by
spaces, then `re.findall(r'\b[a-z√§√∂√º√ü]{4,}\b', ...)`. -/
def keywordCandidates (content title : String) : List String :=
  let text := pyLower (title ++ " " ++ content)
  let t1 := mdCharsToSpace text.data
  let t2 := urlSubGo [' '] (t1.length + 1) t1
  let t3 := emailSubGo [' '] (t2.length + 1) t2
  findallTokens kwClassPost pyWordChar t3

/-- `sorted(word_freq.items(), key=lambda x: x[1], reverse=True)[:15]`. -/
def topFifteen (content title : String) : List (String × Nat) :=
  (sortDescBy (fun p => (p.2 : Int))
    (wordFreqPost (keywordCandidates content title))).take 15

/-- `PostProcessor.extract_keywords_heuristic` (postprocess.py lines
322-361); `SmartCrawler._extract_keywords` in crawl_to_markdown.py lines
482-534 implements the same selection with a slightly larger stopword
set. -/
def extract_keywords_heuristic (content title : String) : List String :=
  keywordSelect (topFifteen content title) []

/-- `SmartCrawler._extract_keywords` (smart_crawl.py lines 297-308): no URL
or e-mail stripping, no stopword filter, no frequency threshold — simply
the top 10 tokens by descending frequency. -/
def smart_extract_keywords (content title : String) : List String :=
  let text := pyLower (title ++ " " ++ content)
  let t1 := mdCharsToSpace text.data
  let words := findallTokens kwClassSmart pyWordChar t1
  let freq := words.foldl (fun l w => bumpFreq l w) []
  ((sortDescBy (fun p => (p.2 : Int)) freq).take 10).map (fun p => p.1)

/-! Lemmas for the keyword invariants. -/

theorem bestTokenLen_bounds {isW : Char → Bool} {whole : List Char} :
    ∀ {n m : Nat}, bestTokenLen isW whole n = some m → 4 ≤ m ∧ m ≤ n := by
  intro n
  induction n with
  | zero => intro m h; cases h
  | succ k ih =>
    intro m h
    unfold bestTokenLen at h
    split at h
    · split at h
      · injection h with h
        subst h
        omega
      · have := ih h
        omega
    · cases h

theorem tokenScanGo_props (isC isW : Char → Bool) :
    ∀ (fuel : Nat) (prevW : Bool) (cs : List Char) (t : List Char),
      t ∈ tokenScanGo isC isW fuel prevW cs →
      (∀ c ∈ t, isC c = true) ∧ 4 ≤ t.length := by
  intro fuel
  induction fuel with
  | zero => intro prevW cs t h; cases h
  | succ f ih =>
    intro prevW cs t h
    cases cs with
    | nil => simp only [tokenScanGo] at h; cases h
    | cons c rest =>
      simp only [tokenScanGo] at h
      split at h
      · split at h
        · next m hbest =>
          rcases List.mem_cons.1 h with rfl | hrest
          · have hb := bestTokenLen_bounds hbest
            constructor
            · intro ch hch
              have hmem : ch ∈ (c :: rest).takeWhile isC :=
                List.mem_of_mem_take hch
              exact List.mem_takeWhile_imp hmem
            · rw [List.length_take]
              omega
          · exact (ih _ _ _ hrest)
        · exact ih _ _ _ h
      · exact ih _ _ _ h

theorem findallTokens_props (isC isW : Char → Bool) (cs : List Char) :
    ∀ w ∈ findallTokens isC isW cs,
      (∀ c ∈ w.data, isC c = true) ∧ 4 ≤ w.length := by
  intro w hw
  rcases List.mem_map.1 hw with ⟨t, ht, rfl⟩
  exact tokenScanGo_props isC isW _ _ _ _ ht

theorem kwClassPost_toLower {c : Char} (h : kwClassPost c = true) :
    c.toLower = c := by
  unfold kwClassPost at h
  rw [Bool.or_eq_true] at h
  rcases h with hl | hm
  · rw [Char.isLower, Bool.and_eq_true] at hl
    have h97 : 97 ≤ c.toNat :=
      UInt32.le_toNat_of_le (by decide) (of_decide_eq_true hl.1)
    unfold Char.toLower
    rw [if_neg (by omega)]
  · have hm2 := List.mem_of_elem_eq_true hm
    simp only [List.mem_cons, List.not_mem_nil, or_false] at hm2
    rcases hm2 with rfl | rfl | rfl | rfl | rfl <;> decide

theorem strMk_data (s : String) : String.mk s.data = s := by
  cases s
  rfl

theorem pyLower_fixed_of_class {w : String}
    (h : ∀ c ∈ w.data, kwClassPost c = true) : pyLower w = w := by
  unfold pyLower
  have : ∀ l : List Char, (∀ c ∈ l, kwClassPost c = true) →
      l.map Char.toLower = l := by
    intro l
    induction l with
    | nil => intro _; rfl
    | cons c cs ih =>
      intro hl
      simp only [List.map_cons]
      rw [kwClassPost_toLower (hl c (List.mem_cons_self c cs)),
        ih (fun x hx => hl x (List.mem_cons_of_mem c hx))]
  rw [this w.data h]

theorem mem_bumpFreq {l : List (String × Nat)} {w : String} {p : String × Nat}
    (h : p ∈ bumpFreq l w) : (∃ q ∈ l, p.1 = q.1) ∨ p = (w, 1) := by
  unfold bumpFreq at h
  split at h
  · rcases List.mem_map.1 h with ⟨q, hq, rfl⟩
    left
    refine ⟨q, hq, ?_⟩
    split <;> rfl
  · rcases List.mem_append.1 h with hl | hr
    · exact Or.inl ⟨p, hl, rfl⟩
    · right
      simpa using hr

theorem bumpFreq_keys {l : List (String × Nat)} {w : String} :
    (bumpFreq l w).map Prod.fst =
      if l.any (fun p => p.1 == w) then l.map Prod.fst
      else l.map Prod.fst ++ [w] := by
  unfold bumpFreq
  split
  · next hany =>
    rw [List.map_map]
    apply List.map_congr_left
    intro p _
    simp only [Function.comp]
    split <;> rfl
  · next hany =>
    simp

theorem bumpFreq_keys_nodup {l : List (String × Nat)} {w : String}
    (h : (l.map Prod.fst).Nodup) : ((bumpFreq l w).map Prod.fst).Nodup := by
  rw [bumpFreq_keys]
  split
  · exact h
  · next hany =>
    have hw : w ∉ l.map Prod.fst := by
      intro hmem
      rcases List.mem_map.1 hmem with ⟨q, hq, rfl⟩
      apply hany
      rw [List.any_eq_true]
      exact ⟨q, hq, by simp⟩
    simp [List.nodup_append, h, hw]

theorem wordFreqPost_props (P : String → Prop) :
    ∀ (ws : List String) (acc : List (String × Nat)),
      (∀ w ∈ ws, P w) →
      (∀ p ∈ acc, P p.1 ∧ stopwords.contains p.1 = false ∧ ¬ p.1.length < 4) →
      (acc.map Prod.fst).Nodup →
      (∀ p ∈ ws.foldl (fun l w =>
          if stopwords.contains w = true ∨ w.length < 4 then l
          else bumpFreq l w) acc,
        P p.1 ∧ stopwords.contains p.1 = false ∧ ¬ p.1.length < 4) ∧
      ((ws.foldl (fun l w =>
          if stopwords.contains w = true ∨ w.length < 4 then l
          else bumpFreq l w) acc).map Prod.fst).Nodup := by
  intro ws
  induction ws with
  | nil => intro acc _ hacc hnd; exact ⟨hacc, hnd⟩
  | cons w ws ih =>
    intro acc hws hacc hnd
    simp only [List.foldl_cons]
    by_cases hc : stopwords.contains w = true ∨ w.length < 4
    · rw [if_pos hc]
      exact ih acc (fun x hx => hws x (List.mem_cons_of_mem w hx)) hacc hnd
    · rw [if_neg hc]
      push_neg at hc
      apply ih
      · exact fun x hx => hws x (List.mem_cons_of_mem w hx)
      · intro p hp
        rcases mem_bumpFreq hp with ⟨q, hq, hpq⟩ | rfl
        · rw [hpq]
          exact hacc q hq
        · refine ⟨hws w (List.mem_cons_self w ws), ?_, ?_⟩
          · simpa using hc.1
          · have h4 := hc.2
            simp only [not_lt]
            exact h4
      · exact bumpFreq_keys_nodup hnd

theorem insDescBy_perm {α : Type} (key : α → Int) (x : α) (l : List α) :
    List.Perm (insDescBy key x l) (x :: l) := by
  induction l with
  | nil => exact List.Perm.refl _
  | cons y ys ih =>
    unfold insDescBy
    split
    · exact List.Perm.refl _
    · exact (List.Perm.cons y ih).trans (List.Perm.swap x y ys)

theorem sortDescBy_perm {α : Type} (key : α → Int) (l : List α) :
    List.Perm (sortDescBy key l) l := by
  induction l with
  | nil => exact List.Perm.refl _
  | cons x xs ih =>
    exact (insDescBy_perm key x _).trans (List.Perm.cons x ih)

theorem keywordStep_length (acc : List String) (w : String) (f : Nat) :
    (keywordStep acc w f).length ≤ acc.length + 1 := by
  unfold keywordStep
  split
  · simp
  · omega

theorem keywordSelect_length :
    ∀ (l : List (String × Nat)) (acc : List String),
      acc.length ≤ 9 → (keywordSelect l acc).length ≤ 10 := by
  intro l
  induction l with
  | nil => intro acc h; unfold keywordSelect; omega
  | cons p rest ih =>
    intro acc h
    obtain ⟨w, f⟩ := p
    have hstep := keywordStep_length acc w f
    unfold keywordSelect
    split
    · omega
    · next hb => exact ih _ (by omega)

theorem keywordStep_mem {acc : List String} {w : String} {f : Nat} {y : String}
    (hy : y ∈ keywordStep acc w f) : y ∈ acc ∨ y = w := by
  unfold keywordStep at hy
  split at hy
  · rcases List.mem_append.1 hy with h1 | h2
    · exact Or.inl h1
    · exact Or.inr (by simpa using h2)
  · exact Or.inl hy

theorem keywordSelect_mem :
    ∀ (l : List (String × Nat)) (acc : List String) (x : String),
      x ∈ keywordSelect l acc → x ∈ acc ∨ x ∈ l.map Prod.fst := by
  intro l
  induction l with
  | nil => intro acc x h; exact Or.inl h
  | cons p rest ih =>
    intro acc x h
    obtain ⟨w, f⟩ := p
    unfold keywordSelect at h
    split at h
    · rcases keywordStep_mem h with h1 | rfl
      · exact Or.inl h1
      · right; simp
    · rcases ih _ x h with h1 | h2
      · rcases keywordStep_mem h1 with h3 | rfl
        · exact Or.inl h3
        · right; simp
      · right
        simp only [List.map_cons]
        exact List.mem_cons_of_mem _ h2

theorem keywordStep_nodup_context {acc : List String} {w : String} {f : Nat}
    {tail : List String} (h : (acc ++ w :: tail).Nodup) :
    (keywordStep acc w f ++ tail).Nodup := by
  unfold keywordStep
  split
  · simpa [List.append_assoc] using h
  · apply h.sublist
    exact List.Sublist.append_left (List.sublist_cons_self _ _) acc

theorem keywordSelect_nodup :
    ∀ (l : List (String × Nat)) (acc : List String),
      (acc ++ l.map Prod.fst).Nodup → (keywordSelect l acc).Nodup := by
  intro l
  induction l with
  | nil =>
    intro acc h
    unfold keywordSelect
    simpa using h
  | cons p rest ih =>
    intro acc h
    obtain ⟨w, f⟩ := p
    unfold keywordSelect
    simp only [List.map_cons] at h
    have hstep : (keywordStep acc w f ++ rest.map Prod.fst).Nodup :=
      keywordStep_nodup_context h
    split
    · exact hstep.sublist (List.sublist_append_left _ _)
    · exact ih _ hstep

/-- C7, counterexample: `SmartCrawler._extract_keywords` (smart_crawl.py),
one of the claim's cited extractors, performs no stopword filtering: on
content `"dieser dieser"` it returns `["dieser"]`, although `dieser` is in
the stopword set — contradicting "none present in the stopword set". -/
theorem C7_smart_keywords_contain_stopword :
    smart_extract_keywords "dieser dieser" "" = ["dieser"] ∧
    stopwords.contains "dieser" = true := by
  refine ⟨by decide, by decide⟩

/-- C7, amended (restricted to `PostProcessor.extract_keywords_heuristic`,
whose behaviour the claim describes): the keyword list has at most 10
entries, is duplicate-free, every keyword is a lowercase class token of at
least 4 characters absent from the stopword set, and every keyword is
drawn from the top 15 tokens by descending frequency. -/
theorem C7_keyword_invariants (content title : String) :
    (extract_keywords_heuristic content title).length ≤ 10 ∧
    (extract_keywords_heuristic content title).Nodup ∧
    ∀ w ∈ extract_keywords_heuristic content title,
      stopwords.contains w = false ∧ 4 ≤ w.length ∧
      (∀ c ∈ w.data, kwClassPost c = true) ∧ pyLower w = w ∧
      w ∈ (topFifteen content title).map Prod.fst := by
  have htok := findallTokens_props kwClassPost pyWordChar
  have hfreq := wordFreqPost_props
    (fun w => (∀ c ∈ w.data, kwClassPost c = true) ∧ 4 ≤ w.length)
    (keywordCandidates content title) []
    (fun w hw => htok _ w hw)
    (by intro p hp; cases hp)
    (by simp)
  have hperm : List.Perm (sortDescBy (fun p => (p.2 : Int))
      (wordFreqPost (keywordCandidates content title)))
      (wordFreqPost (keywordCandidates content title)) :=
    sortDescBy_perm _ _
  have hkeysnd : ((sortDescBy (fun p => (p.2 : Int))
      (wordFreqPost (keywordCandidates content title))).map Prod.fst).Nodup := by
    have h2 := hfreq.2
    exact ((hperm.map Prod.fst).nodup_iff).2 (by simpa [wordFreqPost] using h2)
  have htopnd : ((topFifteen content title).map Prod.fst).Nodup := by
    unfold topFifteen
    exact hkeysnd.sublist ((List.take_sublist 15 _).map Prod.fst)
  refine ⟨?_, ?_, ?_⟩
  · exact keywordSelect_length _ [] (by simp)
  · apply keywordSelect_nodup
    simpa using htopnd
  · intro w hw
    rcases keywordSelect_mem _ [] w hw with h0 | hmem
    · cases h0
    · have hx := hmem
      rcases List.mem_map.1 hmem with ⟨p, hp15, rfl⟩
      have hpsorted : p ∈ sortDescBy (fun p => (p.2 : Int))
          (wordFreqPost (keywordCandidates content title)) := by
        have := List.mem_of_mem_take hp15
        simpa [topFifteen] using this
      have hpfreq : p ∈ wordFreqPost (keywordCandidates content title) :=
        hperm.mem_iff.1 hpsorted
      have hprop := (hfreq.1 p (by simpa [wordFreqPost] using hpfreq))
      refine ⟨hprop.2.1, by omega, hprop.1.1, pyLower_fixed_of_class hprop.1.1, hx⟩

/-- C7, witness: the invariants at a concrete content/title pair, with the
universally quantified conjunct instantiated at its single keyword. -/
theorem C7_witness :
    (extract_keywords_heuristic "wetter wetter" "").length ≤ 10 ∧
    (stopwords.contains "wetter" = false ∧ 4 ≤ ("wetter" : String).length ∧
      (∀ c ∈ ("wetter" : String).data, kwClassPost c = true) ∧
      pyLower "wetter" = "wetter" ∧
      "wetter" ∈ (topFifteen "wetter wetter" "").map Prod.fst) :=
  have h := C7_keyword_invariants "wetter wetter" ""
  ⟨h.1, h.2.2 "wetter" (by decide)⟩

/-! ### Language detection -/

/-- Python `s.split(sep)[0]`: the prefix before the first separator. -/
def primarySubtag (sep : Char) (s : String) : String :=
  String.mk (s.data.takeWhile (fun c => c != sep))

/-- The `lang` attribute of the first `html` element; `""` when the
element or the attribute is missing or empty (all falsy in the source). -/
def htmlLangAttr (doc : Html) : String :=
  match findTag "html" doc with
  | some t => (t.attr "lang").getD ""
  | none => ""

/-- `soup.find('meta', attrs={'name': n})` and its `content` attribute
(`""` when either is missing). -/
def metaContentByName (doc : Html) (n : String) : String :=
  match ((allElems doc).filter
      (fun h => h.tagName == "meta" && h.attr "name" == some n)).head? with
  | some m => (m.attr "content").getD ""
  | none => ""

/-- `SmartCrawlerWithAssets._detect_language_from_html`
(crawl_with_assets.py lines 635-668).  The input is the parsed document,
`none` standing for empty html (the `if not html` guard); the `try` body
cannot raise over this model, so the regex arm of the `except` is dead.
`PostProcessor.detect_language_from_html` (postprocess.py lines 108-134)
is the same logic without the `language`-meta fallback, searching
`og:locale` by `property` instead of `name`. -/
def detect_language_from_html (html : Option Html) : String :=
  match html with
  | none => "en"
  | some doc =>
      if htmlLangAttr doc ≠ "" then
        primarySubtag '-' (pyLower (htmlLangAttr doc))
      else if metaContentByName doc "og:locale" ≠ "" then
        primarySubtag '_' (pyLower (metaContentByName doc "og:locale"))
      else if metaContentByName doc "language" ≠ "" then
        primarySubtag '-' (pyLower (metaContentByName doc "language"))
      else "en"

/-- The root `lang` source of C8's priority list. -/
def langOfRoot (doc : Html) : Option String :=
  if htmlLangAttr doc ≠ "" then
    some (primarySubtag '-' (pyLower (htmlLangAttr doc)))
  else none

/-- The `og:locale` source of C8's priority list (subtag before the
underscore). -/
def langOfOgLocale (doc : Html) : Option String :=
  if metaContentByName doc "og:locale" ≠ "" then
    some (primarySubtag '_' (pyLower (metaContentByName doc "og:locale")))
  else none

/-- The generic `language` meta source of C8's priority list. -/
def langOfLanguageMeta (doc : Html) : Option String :=
  if metaContentByName doc "language" ≠ "" then
    some (primarySubtag '-' (pyLower (metaContentByName doc "language")))
  else none

/-- C8's rule as the claim words it, with the two-letter format guarantee
dropped: the first available source in priority order, else `"en"`. -/
def detectLanguageSpec (html : Option Html) : String :=
  match html with
  | none => "en"
  | some doc =>
      (langOfRoot doc <|> langOfOgLocale doc <|> langOfLanguageMeta doc).getD "en"

theorem char_toNat_ofNat_valid {n : Nat} (h : n.isValidChar) :
    (Char.ofNat n).toNat = n := by
  rw [Char.ofNat, dif_pos h]
  rfl

theorem toLower_not_upper (c : Char) : (Char.toLower c).isUpper = false := by
  unfold Char.toLower
  show (if c.toNat ≥ 65 ∧ c.toNat ≤ 90 then Char.ofNat (c.toNat + 32)
        else c).isUpper = false
  split
  · next h =>
    have hv : (c.toNat + 32).isValidChar := Or.inl (by omega)
    have ht : (Char.ofNat (c.toNat + 32)).toNat = c.toNat + 32 :=
      char_toNat_ofNat_valid hv
    by_contra hup
    rw [Bool.not_eq_false, Char.isUpper, Bool.and_eq_true] at hup
    have h90 : (Char.ofNat (c.toNat + 32)).toNat ≤ 90 :=
      UInt32.toNat_le_of_le (by decide) (of_decide_eq_true hup.2)
    omega
  · next h =>
    by_contra hup
    rw [Bool.not_eq_false, Char.isUpper, Bool.and_eq_true] at hup
    have h65 : 65 ≤ c.toNat :=
      UInt32.le_toNat_of_le (by decide) (of_decide_eq_true hup.1)
    have h90 : c.toNat ≤ 90 :=
      UInt32.toNat_le_of_le (by decide) (of_decide_eq_true hup.2)
    exact h ⟨by omega, by omega⟩

theorem primarySubtag_pyLower_not_upper (sep : Char) (s : String) :
    ∀ c ∈ (primarySubtag sep (pyLower s)).data, c.isUpper = false := by
  intro c hc
  have h1 : c ∈ (pyLower s).data :=
    (List.takeWhile_sublist _).mem hc
  rcases List.mem_map.1 h1 with ⟨x, _, rfl⟩
  exact toLower_not_upper x

/-- C8, counterexample: `<html lang="deu">` yields `"deu"` — the result is
not always exactly 2 lowercase ASCII letters (the primary subtag is
returned whatever its length). -/
theorem C8_three_letter_language :
    detect_language_from_html (some (.el "html" [("lang", "deu")] [] [])) =
      "deu" ∧
    ("deu" : String).length ≠ 2 := by
  refine ⟨by decide, by decide⟩

/-- C8, amended: language detection prefers the root element's lang
attribute (primary subtag before a `-`, lowercased), else the `og:locale`
meta tag (subtag before the underscore), else a generic `language` meta
tag, else `"en"`; the result never contains an uppercase ASCII letter, but
it is the lowercased primary subtag verbatim, with no guarantee of being
exactly 2 letters. -/
theorem C8_language_priority_and_lowercase (html : Option Html) :
    detect_language_from_html html = detectLanguageSpec html ∧
    ∀ c ∈ (detect_language_from_html html).data, c.isUpper = false := by
  have hen : ∀ c ∈ ("en" : String).data, c.isUpper = false := by decide
  constructor
  · cases html with
    | none => rfl
    | some doc =>
      simp only [detect_language_from_html, detectLanguageSpec, langOfRoot,
        langOfOgLocale, langOfLanguageMeta]
      split_ifs with h1 h2 h3 <;> rfl
  · cases html with
    | none => exact hen
    | some doc =>
      simp only [detect_language_from_html]
      split_ifs with h1 h2 h3
      · exact primarySubtag_pyLower_not_upper _ _
      · exact primarySubtag_pyLower_not_upper _ _
      · exact primarySubtag_pyLower_not_upper _ _
      · exact hen

/-- C8, witness: the priority equation and the lowercase guarantee at a
concrete document (`<html lang="de-DE">`, detected as `"de"`). -/
theorem C8_witness :
    detect_language_from_html (some (.el "html" [("lang", "de-DE")] [] [])) =
      detectLanguageSpec (some (.el "html" [("lang", "de-DE")] [] [])) ∧
    Char.isUpper 'd' = false :=
  have h := C8_language_priority_and_lowercase
    (some (.el "html" [("lang", "de-DE")] [] []))
  ⟨h.1, h.2 'd' (by decide)⟩

/-! ### SHA-256 and asset deduplication

`download_asset` (crawl_with_assets.py lines 223-292) content-addresses an
asset by the first 16 hex characters of the SHA-256 of its bytes
(`hashlib.sha256(content).hexdigest()[:16]`).  SHA-256 (FIPS 180-4) is
implemented below over `Nat` with explicit `% 2^32` arithmetic; a byte is
a natural number below 256. -/

/-- `2^32`. -/
def w32 : Nat := 4294967296

/-- 32-bit right rotation. -/
def rotr32 (x n : Nat) : Nat := ((x >>> n) ||| (x <<< (32 - n))) % w32

/-- `Ch(x,y,z) = (x ∧ y) ⊕ (¬x ∧ z)` with 32-bit complement. -/
def shaCh (x y z : Nat) : Nat := (x &&& y) ^^^ ((x ^^^ 4294967295) &&& z)

/-- `Maj(x,y,z)`. -/
def shaMaj (x y z : Nat) : Nat := (x &&& y) ^^^ (x &&& z) ^^^ (y &&& z)

def bigSigma0 (x : Nat) : Nat := rotr32 x 2 ^^^ rotr32 x 13 ^^^ rotr32 x 22

def bigSigma1 (x : Nat) : Nat := rotr32 x 6 ^^^ rotr32 x 11 ^^^ rotr32 x 25

def smallSigma0 (x : Nat) : Nat := rotr32 x 7 ^^^ rotr32 x 18 ^^^ (x >>> 3)

def smallSigma1 (x : Nat) : Nat := rotr32 x 17 ^^^ rotr32 x 19 ^^^ (x >>> 10)

/-- The 64 SHA-256 round constants (FIPS 180-4, in decimal). -/
def shaK : List Nat :=
  [1116352408, 1899447441, 3049323471,
   3921009573, 961987163, 1508970993,
   2453635748, 2870763221, 3624381080,
   310598401, 607225278, 1426881987,
   1925078388, 2162078206, 2614888103,
   3248222580, 3835390401, 4022224774,
   264347078, 604807628, 770255983,
   1249150122, 1555081692, 1996064986,
   2554220882, 2821834349, 2952996808,
   3210313671, 3336571891, 3584528711,
   113926993, 338241895, 666307205,
   773529912, 1294757372, 1396182291,
   1695183700, 1986661051, 2177026350,
   2456956037, 2730485921, 2820302411,
   3259730800, 3345764771, 3516065817,
   3600352804, 4094571909, 275423344,
   430227734, 506948616, 659060556,
   883997877, 958139571, 1322822218,
   1537002063, 1747873779, 1955562222,
   2024104815, 2227730452, 2361852424,
   2428436474, 2756734187, 3204031479,
   3329325298]

/-- The initial SHA-256 hash state (in decimal). -/
def shaH0 : List Nat :=
  [1779033703, 3144134277, 1013904242,
   2773480762, 1359893119, 2600822924,
   528734635, 1541459225]

/-- `k` big-endian bytes of `n`. -/
def beBytes (k : Nat) (n : Nat) : List Nat :=
  match k with
  | 0 => []
  | k + 1 => beBytes k (n / 256) ++ [n % 256]

/-- SHA-256 padding: `0x80`, zeros to 56 mod 64, then the bit length on 8
big-endian bytes. -/
def shaPad (msg : List Nat) : List Nat :=
  let z := (119 - msg.length % 64) % 64
  msg ++ [128] ++ List.replicate z 0 ++ beBytes 8 (8 * msg.length)

/-- Split into 64-byte chunks (`fuel` exceeds the chunk count). -/
def chunks64 (fuel : Nat) (l : List Nat) : List (List Nat) :=
  match fuel with
  | 0 => []
  | fuel + 1 =>
      if l.isEmpty then [] else l.take 64 :: chunks64 fuel (l.drop 64)

/-- Big-endian 32-bit words from bytes. -/
def bytesToWords : List Nat → List Nat
  | b0 :: b1 :: b2 :: b3 :: rest =>
      (((b0 * 256 + b1) * 256 + b2) * 256 + b3) :: bytesToWords rest
  | _ => []

/-- Extend the 16-word schedule by `fuel` further words (48 for a full
round). -/
def shaExtend (fuel : Nat) (w : List Nat) : List Nat :=
  match fuel with
  | 0 => w
  | fuel + 1 =>
      let n := w.length
      let nw := (smallSigma1 (w.getD (n - 2) 0) + w.getD (n - 7) 0 +
                 smallSigma0 (w.getD (n - 15) 0) + w.getD (n - 16) 0) % w32
      shaExtend fuel (w ++ [nw])

/-- One compression round on the state `[a,b,c,d,e,f,g,h]`. -/
def shaCompressStep (s : List Nat) (kw : Nat × Nat) : List Nat :=
  match s with
  | [a, b, c, d, e, f, g, h] =>
      let t1 := (h + bigSigma1 e + shaCh e f g + kw.1 + kw.2) % w32
      let t2 := (bigSigma0 a + shaMaj a b c) % w32
      [(t1 + t2) % w32, a, b, c, (d + t1) % w32, e, f, g]
  | _ => s

/-- Process one 64-byte chunk. -/
def shaCompress (h : List Nat) (chunk : List Nat) : List Nat :=
  let w := shaExtend 48 (bytesToWords chunk)
  let s := (shaK.zip w).foldl shaCompressStep h
  (h.zip s).map (fun p => (p.1 + p.2) % w32)

/-- The eight 32-bit words of the SHA-256 digest. -/
def sha256Words (msg : List Nat) : List Nat :=
  (chunks64 (msg.length + 73) (shaPad msg)).foldl shaCompress shaH0

/-- A hexadecimal digit character. -/
def hexDigit (n : Nat) : Char :=
  if n < 10 then Char.ofNat (48 + n) else Char.ofNat (87 + n)

/-- `k` lowercase hex digits of `n`. -/
def hexN (k : Nat) (n : Nat) : List Char :=
  match k with
  | 0 => []
  | k + 1 => hexN k (n / 16) ++ [hexDigit (n % 16)]

/-- `hashlib.sha256(msg).hexdigest()`. -/
def sha256hex (msg : List Nat) : String :=
  String.mk (((sha256Words msg).map (hexN 8)).flatten)

example :
    sha256hex [] =
      "e3b0c44298fc1c149afbf4c8996fb92427ae41e4649b934ca495991b7852b855" := by
  decide

/-- `_get_image_extension` (crawl_with_assets.py lines 294-303):
content-type table with `.jpg` default. -/
def imageExtension (contentType : String) : String :=
  if contentType == "image/jpeg" then ".jpg"
  else if contentType == "image/png" then ".png"
  else if contentType == "image/gif" then ".gif"
  else if contentType == "image/webp" then ".webp"
  else if contentType == "image/svg+xml" then ".svg"
  else ".jpg"

/-- `urlparse(url).path` for `scheme://host/path?query#fragment` URLs:
drop the fragment and query, then everything up to the first slash after
`://`; with no scheme the remainder is the path. -/
def urlPath (url : String) : String :=
  let cs := (url.data.takeWhile (fun c => c != '#')).takeWhile (fun c => c != '?')
  match findSub "://".data cs with
  | some k => String.mk ((cs.drop (k + 3)).dropWhile (fun c => c != '/'))
  | none => String.mk cs

/-- `_get_file_extension` (crawl_with_assets.py lines 305-321): the URL
path's suffix from its last dot when one exists, else a content-type
table with `.bin` default. -/
def fileExtension (url contentType : String) : String :=
  if (urlPath url).data.contains '.' then
    match lastIdxOf '.' (urlPath url).data with
    | some k => strDrop k (urlPath url)
    | none => ".bin"
  else if contentType == "application/pdf" then ".pdf"
  else if contentType == "application/msword" then ".doc"
  else if contentType ==
      "application/vnd.openxmlformats-officedocument.wordprocessingml.document"
    then ".docx"
  else if contentType == "application/zip" then ".zip"
  else if contentType == "text/plain" then ".txt"
  else ".bin"

/-- The metadata record `download_asset` returns (the timestamp and the
image-dimension fields do not bear on dedup and are omitted). -/
structure AssetMeta where
  hash : String
  filename : String
  original_url : String
  size : Nat
  mime_type : String
deriving Repr, DecidableEq

/-- `open(file_path, 'wb').write(content)` on the asset directory:
overwrite an existing entry or append a new one. -/
def writeFile (fs : List (String × List Nat)) (name : String)
    (data : List Nat) : List (String × List Nat) :=
  if fs.any (fun e => e.1 == name) then
    fs.map (fun e => if e.1 == name then (name, data) else e)
  else fs ++ [(name, data)]

/-- `SmartCrawlerWithAssets.download_asset` (crawl_with_assets.py lines
223-292) on a successful 200 response: `content` are the response bytes,
`contentType` the `Content-Type` header, `fs` the asset directory.  The
hash is the first 16 hex characters of SHA-256; the filename appends the
type-derived extension; the bytes are written unconditionally.
`BulkCrawler.download_asset` (bulk_crawl.py lines 88-155) computes the
same hash and filename with the asset type derived from the content
type. -/
def download_asset (content : List Nat) (url : String) (contentType : String)
    (assetType : String) (fs : List (String × List Nat)) :
    AssetMeta × List (String × List Nat) :=
  let file_hash := strTake 16 (sha256hex content)
  let ext := if assetType == "image" then imageExtension contentType
             else fileExtension url contentType
  let filename := file_hash ++ ext
  ({ hash := file_hash, filename := filename, original_url := url,
     size := content.length, mime_type := contentType },
   writeFile fs filename content)

theorem append_right_ne (s : String) {t u : String} (h : t ≠ u) :
    s ++ t ≠ s ++ u := by
  intro he
  apply h
  have hd := congrArg String.data he
  simp only [String.data_append] at hd
  exact String.ext (List.append_cancel_left hd)

/-- C9, counterexample: the same four bytes registered as files from two
URLs whose paths end in different extensions receive the same 16-hex hash
but different storage keys (`<hash>.pdf` vs `<hash>.zip`), and after the
second registration two stored objects exist — identical bytes do not
collapse to one stored file. -/
theorem C9_same_bytes_two_stored_files :
    (download_asset [37, 80, 68, 70] "http://example.com/a.pdf"
        "application/octet-stream" "file" []).1.hash =
      (download_asset [37, 80, 68, 70] "http://example.com/b.zip"
        "application/octet-stream" "file" []).1.hash ∧
    (download_asset [37, 80, 68, 70] "http://example.com/a.pdf"
        "application/octet-stream" "file" []).1.filename ≠
      (download_asset [37, 80, 68, 70] "http://example.com/b.zip"
        "application/octet-stream" "file" []).1.filename ∧
    (download_asset [37, 80, 68, 70] "http://example.com/b.zip"
        "application/octet-stream" "file"
        (download_asset [37, 80, 68, 70] "http://example.com/a.pdf"
          "application/octet-stream" "file" []).2).2.length = 2 := by
  have hne : strTake 16 (sha256hex [37, 80, 68, 70]) ++ ".pdf" ≠
      strTake 16 (sha256hex [37, 80, 68, 70]) ++ ".zip" :=
    append_right_ne _ (by decide)
  refine ⟨rfl, ?_, ?_⟩
  · show strTake 16 (sha256hex [37, 80, 68, 70]) ++ ".pdf" ≠
      strTake 16 (sha256hex [37, 80, 68, 70]) ++ ".zip"
    exact hne
  · show (writeFile
        [(strTake 16 (sha256hex [37, 80, 68, 70]) ++ ".pdf", [37, 80, 68, 70])]
        (strTake 16 (sha256hex [37, 80, 68, 70]) ++ ".zip")
        [37, 80, 68, 70]).length = 2
    unfold writeFile
    rw [if_neg]
    · rfl
    · simp only [List.any_cons, List.any_nil, Bool.or_false, beq_iff_eq]
      intro h
      exact hne h

/-- C9, amended: identical bytes always receive the identical 16-hex hash
(the first 16 hex characters of their SHA-256), whatever the source URL or
content type; for images the storage key depends only on the bytes and the
content type, so re-registering the same bytes under the same content type
overwrites the same file and stores nothing new; for files the extension is
derived from the source URL, so identical bytes from URLs with different
extensions land under different storage keys. -/
theorem C9_hash_determined_by_bytes (content : List Nat)
    (u1 u2 ct1 ct2 : String) :
    (download_asset content u1 ct1 "image" []).1.hash =
      (download_asset content u2 ct2 "file" []).1.hash ∧
    (download_asset content u1 ct1 "image" []).1.filename =
      (download_asset content u2 ct1 "image" []).1.filename ∧
    (download_asset content u2 ct1 "image"
        (download_asset content u1 ct1 "image" []).2).2.length = 1 := by
  refine ⟨rfl, rfl, ?_⟩
  show (writeFile
      [(strTake 16 (sha256hex content) ++ imageExtension ct1, content)]
      (strTake 16 (sha256hex content) ++ imageExtension ct1) content).length = 1
  unfold writeFile
  rw [if_pos (by simp)]
  simp

/-- C1: `clean(clean(x)) == clean(x)` fails on the concrete markdown
`"a\n---|---\n\n---|---\nc"`.  The first pass removes only the first
table-separator artifact (the second no longer has a preceding newline
inside the matched region once the first match is consumed), leaving
`"a\n---|---\nc"`; the second pass then removes the surviving separator,
producing `"a\nc"`.  So the cleaner is not idempotent, contradicting the
specification's idempotence requirement. -/
theorem C1_clean_markdown_not_idempotent :
    clean_markdown "a\n---|---\n\n---|---\nc" = "a\n---|---\nc" ∧
    clean_markdown (clean_markdown "a\n---|---\n\n---|---\nc") = "a\nc" ∧
    clean_markdown (clean_markdown "a\n---|---\n\n---|---\nc") ≠
      clean_markdown "a\n---|---\n\n---|---\nc" := by
  refine ⟨by decide, by decide, by decide⟩

end Crawl
